import Mathlib

/-!
Shallow embedding of the transport-stream demultiplexer and table decoders
(`tspacketparser.py` and `rename_ts.py`) and proofs about them.

Conventions of the embedding:
* Python `bytes` values are `List Nat`, each element intended `< 256`
  (hypotheses state this where a proof needs it).
* Python exceptions are the explicit error type `PyError`; fallible code
  returns `Except PyError _`.
* Python `while` loops are translated as fuel-indexed structural recursions;
  the fuel passed at each call site is large enough that it can never be
  exhausted (every loop consumes at least one byte per iteration), which is
  proved by the `*_fuel_stable` lemmas below.
* Mutation of `self` is explicit state passing: a method returns the new
  state of the object.
-/

namespace Rts

/-- The Python exception kinds that the two modules can raise:
`RuntimeError` (misaligned `get_bytes`), `OverflowError` (explicit bounds
check in `get_bytes`), `IndexError` (out-of-range `buffer[i]` indexing),
`TypeError` (`None` used as a byte string), and the module's own
`PacketParseError`. -/
inductive PyError where
  | runtimeError
  | overflowError
  | indexError
  | typeError
  | packetParseError
deriving DecidableEq, Repr

deriving instance DecidableEq for Except

/-- Python `buffer[i]` for a nonnegative index: the byte, or `IndexError`. -/
def getByte (l : List Nat) (i : Nat) : Except PyError Nat :=
  if h : i < l.length then .ok l[i] else .error .indexError

/-- Python `int.from_bytes(l, 'big')`. -/
def int_from_bytes (l : List Nat) : Nat :=
  l.foldl (fun acc b => acc * 256 + b) 0

/-- Python `int.from_bytes(l, 'big', signed=True)` for a slice of length at
most one: `b''` decodes to 0, a single byte is sign-extended. -/
def int_from_byte_signed (l : List Nat) : Int :=
  match l with
  | [] => 0
  | b :: _ => if b < 128 then (b : Int) else (b : Int) - 256

/-- `rename_ts.BytesParser`: a bit-level cursor over one buffer. -/
structure BytesParser where
  buffer : List Nat
  bytepos : Nat
  bitpos : Nat
deriving DecidableEq, Repr

namespace BytesParser

/-- `BytesParser.skip`. -/
def skip (s : BytesParser) (n_bits : Nat) : BytesParser :=
  let bitpos := s.bitpos + n_bits
  { s with bytepos := s.bytepos + bitpos / 8, bitpos := bitpos % 8 }

/-- `BytesParser.get_bytes`: requires a byte-aligned cursor
(`RuntimeError` otherwise), then an explicit bounds check (`OverflowError`). -/
def get_bytes (s : BytesParser) (n_bytes : Nat) : Except PyError (List Nat × BytesParser) :=
  if s.bitpos ≠ 0 then .error .runtimeError
  else if s.bytepos + n_bytes > s.buffer.length then .error .overflowError
  else .ok ((s.buffer.drop s.bytepos).take n_bytes,
            { s with bytepos := s.bytepos + n_bytes })

/-- The `for pos in range(startbytepos + 1, endbytepos + 1)` loop of
`BytesParser.get_int`: shift-accumulate `count` further bytes starting at
index `pos`. -/
def readRest (l : List Nat) (pos : Nat) (count : Nat) (acc : Nat) : Except PyError Nat :=
  match count with
  | 0 => .ok acc
  | c + 1 => do
    let b ← getByte l pos
    readRest l (pos + 1) c ((acc <<< 8) ||| b)

/-- `BytesParser.get_int`.  The source computes `endbytepos`/`endbitpos`
(with the `endbitpos == 0` adjustment) and loops over
`range(startbytepos + 1, endbytepos + 1)`; here `extra` is the number of
iterations of that loop (`endbytepos - startbytepos`, which the adjustment
can make `-1`, i.e. an empty range, matching truncated `Nat` subtraction).
There is no bounds check: reading past the end of the buffer surfaces as the
`IndexError` of `getByte`. -/
def get_int (s : BytesParser) (n_bits : Nat) : Except PyError (Nat × BytesParser) := do
  let endbit := s.bitpos + n_bits
  let extra := if endbit % 8 = 0 then endbit / 8 - 1 else endbit / 8
  let endbitpos := if endbit % 8 = 0 then 8 else endbit % 8
  let startbyte0 ← getByte s.buffer s.bytepos
  let startbyte := startbyte0 &&& (2 ^ (8 - s.bitpos) - 1)
  let ret ← readRest s.buffer (s.bytepos + 1) extra startbyte
  .ok (ret >>> (8 - endbitpos), s.skip n_bits)

end BytesParser

/-- `rename_ts.Descriptor` variants: `RawDescriptor` for a generic tag and
`ServiceDescriptor` for the specialized tag `0x48`. -/
inductive Descriptor where
  | raw (descriptor_tag descriptor_length : Nat) (payload : List Nat)
  | service (descriptor_tag descriptor_length service_type : Nat)
      (service_provider_name service_name : List Nat)
deriving DecidableEq, Repr

/-- The `while bytes_parser.bytepos < len(bytes_parser.buffer)` loop of
`rename_ts.parse_descriptors_loop`, fuel-indexed.  Each iteration consumes at
least two bytes, so fuel `buffer.length + 1` is never exhausted. -/
def parseDescriptorsLoop : Nat → BytesParser → Except PyError (List Descriptor)
  | 0, _ => .ok []
  | fuel + 1, bp =>
    if bp.bytepos < bp.buffer.length then do
      let (descriptor_tag, bp) ← bp.get_int 8
      let (descriptor_length, bp) ← bp.get_int 8
      let (payload, bp) ← bp.get_bytes descriptor_length
      let descriptor ←
        if descriptor_tag = 0x48 then do
          let pp := BytesParser.mk payload 0 0
          let (service_type, pp) ← pp.get_int 8
          let (service_provider_name_length, pp) ← pp.get_int 8
          let (service_provider_name, pp) ← pp.get_bytes service_provider_name_length
          let (service_name_length, pp) ← pp.get_int 8
          let (service_name, _) ← pp.get_bytes service_name_length
          pure (Descriptor.service descriptor_tag descriptor_length service_type
            service_provider_name service_name)
        else
          pure (Descriptor.raw descriptor_tag descriptor_length payload)
      let rest ← parseDescriptorsLoop fuel bp
      .ok (descriptor :: rest)
    else .ok []

/-- `rename_ts.parse_descriptors_loop`. -/
def parse_descriptors_loop (buffer : List Nat) : Except PyError (List Descriptor) :=
  parseDescriptorsLoop (buffer.length + 1) (BytesParser.mk buffer 0 0)

/-- `rename_ts.SDTService`. -/
structure SDTService where
  service_id : Nat
  eit_user_defined_flags : Nat
  eit_schedule_flag : Nat
  eit_present_following_flag : Nat
  running_status : Nat
  free_CA_mode : Nat
  descriptors_loop_length : Nat
  descriptors_loop : List Nat
deriving DecidableEq, Repr

/-- `rename_ts.SDT`. -/
structure SDT where
  transport_stream_id : Nat
  version_number : Nat
  current_next_indicator : Bool
  section_number : Nat
  last_section_number : Nat
  original_network_id : Nat
  services : List SDTService
deriving DecidableEq, Repr

/-- The `while buf.bytepos + 4 < len(buffer)` service loop of
`rename_ts.parse_sdt`, fuel-indexed.  Each iteration consumes at least five
bytes, so fuel `buffer.length + 1` is never exhausted. -/
def parseSDTServices : Nat → BytesParser → Except PyError (List SDTService)
  | 0, _ => .ok []
  | fuel + 1, buf =>
    if buf.bytepos + 4 < buf.buffer.length then do
      let (service_id, buf) ← buf.get_int 16
      let buf := buf.skip 3
      let (eit_user_defined_flags, buf) ← buf.get_int 3
      let (eit_schedule_flag, buf) ← buf.get_int 1
      let (eit_present_following_flag, buf) ← buf.get_int 1
      let (running_status, buf) ← buf.get_int 3
      let (free_CA_mode, buf) ← buf.get_int 1
      let (descriptors_loop_length, buf) ← buf.get_int 12
      let (descriptors_loop, buf) ← buf.get_bytes descriptors_loop_length
      let rest ← parseSDTServices fuel buf
      .ok ({ service_id, eit_user_defined_flags, eit_schedule_flag,
             eit_present_following_flag, running_status, free_CA_mode,
             descriptors_loop_length, descriptors_loop : SDTService } :: rest)
    else .ok []

/-- `rename_ts.parse_sdt`. -/
def parse_sdt (buffer : List Nat) : Except PyError SDT := do
  let buf := BytesParser.mk buffer 0 0
  let (transport_stream_id, buf) ← buf.get_int 16
  let buf := buf.skip 2
  let (version_number, buf) ← buf.get_int 5
  let (cni, buf) ← buf.get_int 1
  let (section_number, buf) ← buf.get_int 8
  let (last_section_number, buf) ← buf.get_int 8
  let (original_network_id, buf) ← buf.get_int 16
  let buf := buf.skip 8
  let services ← parseSDTServices (buffer.length + 1) buf
  .ok { transport_stream_id, version_number,
        current_next_indicator := cni != 0,
        section_number, last_section_number, original_network_id, services }

/-- `tspacketparser.Section`. -/
structure Section where
  table_id : Nat
  section_syntax_indicator : Bool
  section_length : Nat
  payload : List Nat
deriving DecidableEq, Repr

/-- The state of `tspacketparser.SectionParser`: `buffer = none` means the
parser has lost the start position; `parsed_sections` holds completed
sections newest-first (`insert(0, ...)` prepends, `pop()` removes the last,
i.e. oldest-out FIFO). -/
structure SPState where
  buffer : Option (List Nat)
  parsed_sections : List Section
deriving DecidableEq, Repr

/-- The `while True` section-extraction loop of `SectionParser.feed`,
fuel-indexed.  Each iteration consumes at least three bytes, so fuel
`buf.length + 1` is never exhausted.  Returns the final `buffer` field and
the grown `parsed_sections` list. -/
def extractSections : Nat → List Nat → List Section → Option (List Nat) × List Section
  | 0, buf, secs => (some buf, secs)
  | fuel + 1, buf, secs =>
    if buf.length < 3 then (some buf, secs)
    else
      let table_id := buf.headD 0
      let num := int_from_bytes ((buf.drop 1).take 2)
      let section_syntax_indicator := num >>> 15 != 0
      let section_length := num &&& 0x0fff
      if buf.length < 3 + section_length then (some buf, secs)
      else
        let table_body := (buf.drop 3).take section_length
        let secs' := Section.mk table_id section_syntax_indicator section_length
          table_body :: secs
        let buf' := buf.drop (3 + section_length)
        if buf'.isEmpty || buf'.headD 0 == 0xff then (none, secs')
        else extractSections fuel buf' secs'

namespace SPState

/-- `SectionParser.feed`.  `payload` is `Option` because the dispatcher can
hand a packet whose `payload` is Python `None` (adaptation-field-only
packet); Python then raises a `TypeError` (`None[0]` resp. `bytes + None`),
except in the unsynchronized no-start branch which returns before touching
the payload. -/
def feed (s : SPState) (payload_unit_start_indicator : Bool)
    (payload? : Option (List Nat)) : Except PyError SPState :=
  match s.buffer with
  | none =>
    if payload_unit_start_indicator then
      match payload? with
      | none => .error .typeError
      | some payload => do
        let pointer ← getByte payload 0
        let buf := payload.drop (1 + pointer)
        let (buffer', secs') := extractSections (buf.length + 1) buf s.parsed_sections
        .ok ⟨buffer', secs'⟩
    else .ok s
  | some pending =>
    match payload? with
    | none => .error .typeError
    | some payload =>
      let buf := if payload_unit_start_indicator then pending ++ payload.drop 1
                 else pending ++ payload
      let (buffer', secs') := extractSections (buf.length + 1) buf s.parsed_sections
      .ok ⟨buffer', secs'⟩

/-- `SectionParser.get_section`: pop the oldest completed section, if any. -/
def get_section (s : SPState) : Option Section × SPState :=
  match s.parsed_sections.getLast? with
  | some sec => (some sec, { s with parsed_sections := s.parsed_sections.dropLast })
  | none => (none, s)

end SPState

/-- `tspacketparser.TSPacket`.  `adaptation_field` and `payload` are `none`
exactly when the corresponding Python fields are `None`. -/
structure TSPacket where
  transport_error_indicator : Bool
  payload_unit_start_indicator : Bool
  transport_priority : Bool
  pid : Nat
  transport_scrambling_control : Nat
  adaptation_field_control : Nat
  continuity_counter : Nat
  adaptation_field : Option (List Nat)
  payload : Option (List Nat)
deriving DecidableEq, Repr

/-- `tspacketparser.AdaptationField`.  `pcr`, `opcr` and
`splicing_countdown` are `none` when the corresponding flag is clear. -/
structure AdaptationField where
  discontinuity_indicator : Bool
  random_access_indicator : Bool
  elementary_stream_priority_indicator : Bool
  pcr_flag : Bool
  opcr_flag : Bool
  splicing_point_flag : Bool
  transport_private_data_flag : Bool
  adaptation_field_extension_flag : Bool
  pcr : Option Nat
  opcr : Option Nat
  splicing_countdown : Option Int
  transport_private_data : Option (List Nat)
  adaptation_field_extension : Option (List Nat)
deriving DecidableEq, Repr

/-- The nested `parse_pcr` of `tspacketparser.parse_adaptation_field`:
`(num >> 15) * 300 + ((num >> 6) & 0x01ff)` on the big-endian value of the
6-byte slice. -/
def parse_pcr (buffer : List Nat) : Nat :=
  let num := int_from_bytes buffer
  (num >>> 15) * 300 + ((num >>> 6) &&& 0x01ff)

/-- `tspacketparser.parse_adaptation_field`. -/
def parse_adaptation_field (buffer : List Nat) : Except PyError (Option AdaptationField) := do
  let adaptation_field_length ← getByte buffer 0
  if 1 + adaptation_field_length ≠ buffer.length then .error .packetParseError
  else if adaptation_field_length = 0 then .ok none
  else do
    let flags ← getByte buffer 1
    let discontinuity_indicator := flags >>> 7 != 0
    let random_access_indicator := (flags >>> 6) &&& 0x01 != 0
    let elementary_stream_priority_indicator := (flags >>> 5) &&& 0x01 != 0
    let pcr_flag := (flags >>> 4) &&& 0x01 != 0
    let opcr_flag := (flags >>> 3) &&& 0x01 != 0
    let splicing_point_flag := (flags >>> 2) &&& 0x01 != 0
    let transport_private_data_flag := (flags >>> 1) &&& 0x01 != 0
    let adaptation_field_extension_flag := flags &&& 0x01 != 0
    let pointer := 2
    let pcr := if pcr_flag then some (parse_pcr ((buffer.drop pointer).take 6)) else none
    let pointer := if pcr_flag then pointer + 6 else pointer
    let opcr := if opcr_flag then some (parse_pcr ((buffer.drop pointer).take 6)) else none
    let pointer := if opcr_flag then pointer + 6 else pointer
    let splicing_countdown :=
      if splicing_point_flag then some (int_from_byte_signed ((buffer.drop pointer).take 1))
      else none
    .ok (some { discontinuity_indicator, random_access_indicator,
                elementary_stream_priority_indicator, pcr_flag, opcr_flag,
                splicing_point_flag, transport_private_data_flag,
                adaptation_field_extension_flag, pcr, opcr, splicing_countdown,
                transport_private_data := none, adaptation_field_extension := none })

/-- `tspacketparser.parse_packet`: decode one 188-byte frame or fail with
`PacketParseError`.  `buffer[4]` is read (when the adaptation-field-control
bit is set) before the validity checks, exactly as in the source. -/
def parse_packet (buffer : List Nat) : Except PyError TSPacket := do
  let header := int_from_bytes (buffer.take 4)
  let sync_byte := header >>> 24
  let transport_error_indicator := header &&& 0x800000 != 0
  let payload_unit_start_indicator := header &&& 0x400000 != 0
  let transport_priority := header &&& 0x200000 != 0
  let pid := (header >>> 8) &&& 0x1fff
  let transport_scrambling_control := (header >>> 6) &&& 0x03
  let adaptation_field_control := (header >>> 4) &&& 0x03
  let continuity_counter := header &&& 0x0f
  let adaptation_field_length? ←
    if adaptation_field_control &&& 0x02 ≠ 0 then do
      let b ← getByte buffer 4
      pure (some b)
    else pure none
  if sync_byte ≠ 0x47 then .error .packetParseError
  else if transport_error_indicator then .error .packetParseError
  else if 0x0002 ≤ pid ∧ pid ≤ 0x000f then .error .packetParseError
  else if transport_scrambling_control = 0x01 then .error .packetParseError
  else if adaptation_field_control = 0x00 then .error .packetParseError
  else if adaptation_field_control = 0x02 ∧ adaptation_field_length?.getD 0 > 183 then
    .error .packetParseError
  else if adaptation_field_control = 0x03 ∧ adaptation_field_length?.getD 0 > 182 then
    .error .packetParseError
  else
    let (adaptation_field, payload) :=
      match adaptation_field_length? with
      | some afl => (some ((buffer.drop 4).take (1 + afl)), buffer.drop (5 + afl))
      | none => (none, buffer.drop 4)
    let payload := if adaptation_field_control &&& 0x01 = 0 then none else some payload
    .ok { transport_error_indicator, payload_unit_start_indicator,
          transport_priority, pid, transport_scrambling_control,
          adaptation_field_control, continuity_counter, adaptation_field, payload }

/-- One step of the `tspacketparser.read_ts_packet` generator: refill the
window to 188 bytes from the source, then either yield a parsed packet (and
the remaining source), resynchronize byte-by-byte on a `PacketParseError` or
a misplaced sync byte, or stop on a short read.  Fuel-indexed; every
recursion drops at least one byte from window + source, so fuel
`window.length + source.length + 1` is never exhausted (exhaustion returns
a short-read stop, which is unreachable at that fuel). -/
def nextPacketAux : Nat → List Nat → List Nat → Except PyError (Option (TSPacket × List Nat))
  | 0, _, _ => .ok none
  | fuel + 1, window, src =>
    let need := 188 - window.length
    let w := window ++ src.take need
    let src' := src.drop need
    if w.length ≠ 188 then .ok none
    else
      match w.findIdx? (· == 0x47) with
      | some 0 =>
        match parse_packet w with
        | .ok packet => .ok (some (packet, src'))
        | .error .packetParseError => nextPacketAux fuel (w.drop 1) src'
        | .error e => .error e
      | some idx => nextPacketAux fuel (w.drop idx) src'
      | none => nextPacketAux fuel [] src'

/-- `read_ts_packet` restarted with an empty window (the state it is in
after every yield). -/
def nextPacket (src : List Nat) : Except PyError (Option (TSPacket × List Nat)) :=
  nextPacketAux (src.length + 1) [] src

/-- The state of a `tspacketparser.SectionPacketProcessor`: the subscribed
pid, the composed `SectionParser`, and the state `τ` of the concrete
subclass (the fields written by its `feed_section`). -/
structure SPPState (τ : Type) where
  pid : Nat
  sectionParser : SPState
  inner : τ
deriving DecidableEq, Repr

/-- `SectionPacketProcessor.feed`, parameterized by the subclass
`feed_section` implementation `fs` (which returns the updated subclass state
and the exception it raised, if any).  An exception from
`section_parser.feed` leaves the object unchanged (the Python method raises
before assigning `self.buffer`); an exception from `feed_section`
propagates, but the section-parser mutations made before the call persist. -/
def sppFeed {τ : Type} (fs : τ → Section → τ × Option PyError)
    (st : SPPState τ) (packet : TSPacket) : SPPState τ × Option PyError :=
  if packet.pid ≠ st.pid then (st, none)
  else
    match st.sectionParser.feed packet.payload_unit_start_indicator packet.payload with
    | .error e => (st, some e)
    | .ok sp =>
      match sp.get_section with
      | (none, sp') => ({ st with sectionParser := sp' }, none)
      | (some sec, sp') =>
        let (inner', e?) := fs st.inner sec
        ({ st with sectionParser := sp', inner := inner' }, e?)

/-- The result-holding fields of `rename_ts.NIDSIDExtractor`. -/
structure NIDState where
  network_id : Option Nat
  service_id : Option Nat
deriving DecidableEq, Repr

/-- `x.descriptor_tag == 72 and x.service_type == 1` from
`NIDSIDExtractor.feed_section`.  `parse_descriptors_loop` only ever builds a
`raw` descriptor for a tag other than `0x48 = 72`, so the short-circuit
`and` never reaches `service_type` on a raw descriptor; the `raw` case is
`false` accordingly. -/
def isDigitalTV : Descriptor → Bool
  | .service tag _ stype _ _ => tag == 72 && stype == 1
  | .raw _ _ _ => false

/-- The comprehension filter of `NIDSIDExtractor.feed_section`: does this
service's descriptor loop contain a tag-72 descriptor with service type 1?
Decoding errors propagate. -/
def serviceQualifies (service : SDTService) : Except PyError Bool := do
  let descriptors ← parse_descriptors_loop service.descriptors_loop
  .ok (descriptors.any isDigitalTV)

/-- The `service_ids` list comprehension of `NIDSIDExtractor.feed_section`,
evaluated left to right with the first decoding error aborting the whole
comprehension. -/
def collectServiceIds : List SDTService → Except PyError (List Nat)
  | [] => .ok []
  | service :: rest => do
    let q ← serviceQualifies service
    let ids ← collectServiceIds rest
    .ok (if q then service.service_id :: ids else ids)

/-- Python `min` on a list of naturals; the empty case is unreachable at its
call site (`feed_section` returns first when `service_ids` is empty). -/
def pyMin : List Nat → Nat
  | [] => 0
  | h :: t => t.foldl min h

namespace NIDState

/-- `NIDSIDExtractor.feed_section` as a transformer of the result fields:
returns the new state and the exception raised, if any.  All mutations
happen after every decode succeeded, so an error leaves the state
unchanged. -/
def feed_section (st : NIDState) (sec : Section) : NIDState × Option PyError :=
  if sec.table_id ≠ 66 then (st, none)
  else
    match parse_sdt sec.payload with
    | .error e => (st, some e)
    | .ok sdt =>
      match collectServiceIds sdt.services with
      | .error e => (st, some e)
      | .ok service_ids =>
        if service_ids.isEmpty then (st, none)
        else ({ network_id := some sdt.original_network_id,
                service_id := some (pyMin service_ids) }, none)

/-- `NIDSIDExtractor.done`. -/
def done (st : NIDState) : Bool :=
  st.network_id.isSome && st.service_id.isSome

end NIDState

/-- A fresh `NIDSIDExtractor()`: subscribed to pid `0x11` with an empty
section parser and no result yet. -/
def initNIDSID : SPPState NIDState :=
  ⟨0x11, ⟨none, []⟩, ⟨none, none⟩⟩

/-- The `for packet_processor in undone_processors` loop of
`tspacketparser.parse`, one packet: the not-done snapshot is taken before
any feeding (`undone_processors` is computed first), each snapshot member is
fed in order, and the first exception stops the loop with the remaining
processors untouched.  Also returns, for bookkeeping, which processors were
fed (`true` exactly for the processors whose `feed` was called on this
packet). -/
def dispatchStep {σ : Type} (feedI : σ → TSPacket → σ × Option PyError)
    (doneI : σ → Bool) (packet : TSPacket) :
    List σ → List σ × List Bool × Option PyError
  | [] => ([], [], none)
  | s :: rest =>
    if doneI s then
      let (rest', fed, e?) := dispatchStep feedI doneI packet rest
      (s :: rest', false :: fed, e?)
    else
      match feedI s packet with
      | (s', none) =>
        let (rest', fed, e?) := dispatchStep feedI doneI packet rest
        (s' :: rest', true :: fed, e?)
      | (s', some e) => (s' :: rest, true :: rest.map (fun _ => false), some e)

/-- `tspacketparser.parse`, fuel-indexed over packets: pull the next framed
packet, stop if the source is exhausted, stop (before feeding) if every
processor is done, otherwise feed the packet to every processor that was not
done and recurse; an exception from a `feed` propagates immediately.
Returns the final processor states, the per-packet fed-flags log, the
escaped exception if any, and the unread remainder of the source. -/
def parseLoop {σ : Type} (feedI : σ → TSPacket → σ × Option PyError)
    (doneI : σ → Bool) :
    Nat → List Nat → List σ → List σ × List (List Bool) × Option PyError × List Nat
  | 0, src, ss => (ss, [], none, src)
  | fuel + 1, src, ss =>
    match nextPacket src with
    | .error e => (ss, [], some e, src)
    | .ok none => (ss, [], none, [])
    | .ok (some (packet, src')) =>
      if ss.all doneI then (ss, [], none, src')
      else
        match dispatchStep feedI doneI packet ss with
        | (ss', fed, some e) => (ss', [fed], some e, src')
        | (ss', fed, none) =>
          let (ssF, logs, e?, rem) := parseLoop feedI doneI fuel src' ss'
          (ssF, fed :: logs, e?, rem)

/-- The `feed` of a `NIDSIDExtractor`, as dispatched by `parse`. -/
def nidsidFeed (st : SPPState NIDState) (packet : TSPacket) :
    SPPState NIDState × Option PyError :=
  sppFeed NIDState.feed_section st packet

/-- The `done` of a `NIDSIDExtractor`, as consulted by `parse`. -/
def nidsidDone (st : SPPState NIDState) : Bool :=
  st.inner.done

/-- Read a sequence of bit-widths in order with `get_int`, collecting the
values; the first failure aborts. -/
def readWidths (s : BytesParser) : List Nat → Except PyError (List Nat)
  | [] => .ok []
  | w :: ws => do
    let (v, s') ← s.get_int w
    let vs ← readWidths s' ws
    .ok (v :: vs)

/-- Fold a list of values back together by shift-and-or, each value shifted
left by the sum of the remaining widths. -/
def shiftOrFold : List Nat → List Nat → Nat
  | v :: vs, _ :: ws => (v <<< ws.sum) ||| shiftOrFold vs ws
  | _, _ => 0

/-- The 33-bit base of a 6-byte clock-reference field: the top 33 bits of
the 48-bit big-endian value. -/
def pcrBase (bs : List Nat) : Nat :=
  int_from_bytes bs / 2 ^ 15

/-- The 9-bit extension the code actually extracts: bits 14..6 of the
48-bit value (the 9 bits immediately above the bottom 6). -/
def pcrExtMid (bs : List Nat) : Nat :=
  int_from_bytes bs / 2 ^ 6 % 2 ^ 9

/-- The 9-bit extension in the layout the claim describes: the lowest 9
bits of the 48-bit value. -/
def pcrExtLow (bs : List Nat) : Nat :=
  int_from_bytes bs % 2 ^ 9

/-- The rejection conditions of `parse_packet`, restated independently at
byte level (big-endian bit fields of the 4-byte header plus the declared
adaptation-field length in byte 4): wrong sync byte, transport error
indicator set, pid in the reserved range 2..15, scrambling control equal to
the reserved 1, adaptation-field control 0, or an adaptation field longer
than fits (183 without payload, 182 with payload). -/
def frameRejected (buffer : List Nat) : Prop :=
  let b0 := buffer.getD 0 0
  let b1 := buffer.getD 1 0
  let b2 := buffer.getD 2 0
  let b3 := buffer.getD 3 0
  let pid := b1 % 32 * 256 + b2
  let tsc := b3 / 64
  let afc := b3 / 16 % 4
  let afl := buffer.getD 4 0
  b0 ≠ 0x47 ∨ 128 ≤ b1 ∨ (0x0002 ≤ pid ∧ pid ≤ 0x000f) ∨ tsc = 0x01 ∨
    afc = 0x00 ∨ (afc = 0x02 ∧ afl > 183) ∨ (afc = 0x03 ∧ afl > 182)

instance (buffer : List Nat) : Decidable (frameRejected buffer) := by
  unfold frameRejected; infer_instance

/-! ## Supporting lemmas: `BytesParser` -/

theorem getByte_ok {l : List Nat} {i b : Nat} (h : getByte l i = .ok b) :
    i < l.length ∧ l.getD i 0 = b := by
  unfold getByte at h
  split at h
  · rename_i hi
    refine ⟨hi, ?_⟩
    simpa [List.getD, List.getElem?_eq_getElem hi] using h
  · simp at h

theorem getByte_of_lt {l : List Nat} {i : Nat} (h : i < l.length) :
    getByte l i = .ok l[i] := by
  unfold getByte
  simp [h]

/-- A successful `get_int` always leaves the cursor advanced by exactly
`n_bits`, i.e. in the state `skip n_bits` produces. -/
theorem get_int_ok_state {s : BytesParser} {n v : Nat} {s' : BytesParser}
    (h : s.get_int n = .ok (v, s')) : s' = s.skip n := by
  unfold BytesParser.get_int at h
  cases hg : getByte s.buffer s.bytepos with
  | error e => rw [hg] at h; simp [Bind.bind, Except.bind] at h
  | ok b =>
    rw [hg] at h
    simp only [Bind.bind, Except.bind] at h
    cases hr : BytesParser.readRest s.buffer (s.bytepos + 1)
        (if (s.bitpos + n) % 8 = 0 then (s.bitpos + n) / 8 - 1 else (s.bitpos + n) / 8)
        (b &&& (2 ^ (8 - s.bitpos) - 1)) with
    | error e => rw [hr] at h; simp at h
    | ok r =>
      rw [hr] at h
      simp only [Except.ok.injEq, Prod.mk.injEq] at h
      exact h.2.symm

/-- Characterization of a successful `get_bytes`. -/
theorem get_bytes_ok {s : BytesParser} {n : Nat} {bs : List Nat} {s' : BytesParser}
    (h : s.get_bytes n = .ok (bs, s')) :
    s.bitpos = 0 ∧ s.bytepos + n ≤ s.buffer.length ∧
      bs = (s.buffer.drop s.bytepos).take n ∧
      s' = { s with bytepos := s.bytepos + n } := by
  unfold BytesParser.get_bytes at h
  split at h
  · simp at h
  · split at h
    · simp at h
    · rename_i h1 h2
      simp only [Except.ok.injEq, Prod.mk.injEq] at h
      exact ⟨by omega, by omega, h.1.symm, h.2.symm⟩

theorem readRest_error {l : List Nat} {pos count : Nat} (acc : Nat)
    (hlen : l.length < pos + count) (hc : 1 ≤ count) :
    BytesParser.readRest l pos count acc = .error .indexError := by
  induction count generalizing pos acc with
  | zero => omega
  | succ c ih =>
    unfold BytesParser.readRest
    by_cases hp : pos < l.length
    · rw [getByte_of_lt hp]
      simp only [Bind.bind, Except.bind]
      cases c with
      | zero => omega
      | succ c' => exact ih _ (by omega) (by omega)
    · unfold getByte
      simp [hp, Bind.bind, Except.bind]

/-! ## C8: out-of-range reads -/

/-- C8 (counterexample): the claim says a past-the-end `get_int` fails with
`OverflowError`; on the one-byte buffer `[0]`, reading 16 bits from a fresh
parser overruns the buffer yet the error is the `IndexError` of the
unchecked `buffer[pos]` indexing, not `OverflowError` — `get_int` has no
bounds check at all. -/
theorem c8_counterexample :
    (BytesParser.mk [0] 0 0).get_int 16 = .error .indexError ∧
      ¬ (BytesParser.mk [0] 0 0).get_int 16 = .error .overflowError := by
  decide

/-- C8 (amended): every `BytesParser` read that would extend past the end of
the buffer fails, but with these error kinds: `get_bytes n` on a
byte-aligned cursor fails with `OverflowError` whenever `bytepos + n`
exceeds the buffer length (on a misaligned cursor `get_bytes` fails with
`RuntimeError` regardless); `get_int n_bits` (for `n_bits ≥ 1`) fails with
`IndexError` — not `OverflowError` — whenever the bit position plus
`n_bits` exceeds the buffer's total bit length, because it performs no
explicit bounds check and the failure arises from out-of-range indexing. -/
theorem c8_bitreader_bounds (s : BytesParser) (n : Nat) :
    (s.bitpos = 0 → s.buffer.length < s.bytepos + n →
      s.get_bytes n = .error .overflowError) ∧
    (s.bitpos ≠ 0 → s.get_bytes n = .error .runtimeError) ∧
    (s.bitpos < 8 → 1 ≤ n → 8 * s.buffer.length < 8 * s.bytepos + s.bitpos + n →
      s.get_int n = .error .indexError) := by
  refine ⟨?_, ?_, ?_⟩
  · intro h0 hover
    unfold BytesParser.get_bytes
    simp [h0]
    omega
  · intro h0
    unfold BytesParser.get_bytes
    simp [h0]
  · intro hbit hn hover
    unfold BytesParser.get_int
    by_cases hbp : s.bytepos < s.buffer.length
    · rw [getByte_of_lt hbp]
      simp only [Bind.bind, Except.bind]
      rw [readRest_error]
      · by_cases h8 : (s.bitpos + n) % 8 = 0 <;> simp [h8] <;> omega
      · by_cases h8 : (s.bitpos + n) % 8 = 0 <;> simp [h8] <;> omega
    · unfold getByte
      simp [hbp, Bind.bind, Except.bind]

/-- C8 (witness): concrete instances of all three clauses of
`c8_bitreader_bounds`: an aligned overlong `get_bytes` → `OverflowError`, a
misaligned `get_bytes` → `RuntimeError`, an overlong `get_int` →
`IndexError`. -/
theorem c8_bitreader_bounds_witness :
    (BytesParser.mk [1, 2] 0 0).get_bytes 5 = .error .overflowError ∧
      (BytesParser.mk [1] 0 3).get_bytes 1 = .error .runtimeError ∧
      (BytesParser.mk [7] 0 0).get_int 16 = .error .indexError :=
  ⟨(c8_bitreader_bounds ⟨[1, 2], 0, 0⟩ 5).1 (by decide) (by decide),
   (c8_bitreader_bounds ⟨[1], 0, 3⟩ 1).2.1 (by decide),
   (c8_bitreader_bounds ⟨[7], 0, 0⟩ 16).2.2 (by decide) (by decide) (by decide)⟩

/-! ## C7: start indicator while synchronized -/

/-- C7 (counterexample): the claim says that a start-indicator feed while a
partial section is pending discards the pending buffer and restarts from the
new payload.  With pending `[66, 128, 3]` (an incomplete section declaring
length 3) and payload `[0, 9, 9]`, a restart would leave the buffer at
`[9, 9]` (what a fresh, unsynchronized parser accumulates from that same
payload), but the parser actually keeps the pending bytes and appends,
leaving `[66, 128, 3, 9, 9]`. -/
theorem c7_counterexample :
    SPState.feed ⟨some [66, 128, 3], []⟩ true (some [0, 9, 9]) =
        .ok ⟨some [66, 128, 3, 9, 9], []⟩ ∧
      SPState.feed ⟨none, []⟩ true (some [0, 9, 9]) = .ok ⟨some [9, 9], []⟩ ∧
      ([66, 128, 3, 9, 9] : List Nat) ≠ [9, 9] := by
  decide

/-- C7 (amended): when `feed` is called with the start indicator set while
the parser is synchronized (a pending partial buffer exists), the pending
buffer is NOT discarded: exactly one pointer-field byte is dropped from the
new payload and the remainder is appended to the pending bytes — the call
behaves identically to a continuation feed (start indicator clear) of the
payload minus its first byte. -/
theorem c7_sync_start_appends (s : SPState) (pending : List Nat)
    (payload : List Nat) (h : s.buffer = some pending) :
    s.feed true (some payload) = s.feed false (some (payload.drop 1)) := by
  cases s with
  | mk buf secs =>
    simp only [SPState.buffer] at h
    subst h
    simp [SPState.feed]

/-- C7 (witness): `c7_sync_start_appends` at the counterexample's input. -/
theorem c7_sync_start_appends_witness :
    SPState.feed ⟨some [66, 128, 3], []⟩ true (some [0, 9, 9]) =
      SPState.feed ⟨some [66, 128, 3], []⟩ false (some [9, 9]) :=
  c7_sync_start_appends ⟨some [66, 128, 3], []⟩ [66, 128, 3] [0, 9, 9] rfl

/-! ## C2: one complete section, unsplit or split -/

/-- Extraction from a buffer holding exactly one complete section: the
section is emitted, the buffer is exactly used up, and the parser
resynchronizes (`buffer = None`). -/
theorem extractSections_exact (tid b1 b2 : Nat) (body : List Nat) (secs : List Section)
    (h : body.length = int_from_bytes [b1, b2] &&& 0x0fff) :
    extractSections ((tid :: b1 :: b2 :: body).length + 1) (tid :: b1 :: b2 :: body) secs =
      (none, Section.mk tid (int_from_bytes [b1, b2] >>> 15 != 0)
        (int_from_bytes [b1, b2] &&& 0x0fff) body :: secs) := by
  have hslice : ((tid :: b1 :: b2 :: body).drop 1).take 2 = [b1, b2] := by
    simp [List.take_succ_cons]
  rw [extractSections]
  have h1 : ¬ ((tid :: b1 :: b2 :: body).length < 3) := by simp
  rw [if_neg h1, hslice]
  have h2 : ¬ ((tid :: b1 :: b2 :: body).length <
      3 + (int_from_bytes [b1, b2] &&& 0x0fff)) := by
    simp [← h]
    omega
  rw [if_neg h2]
  have hdrop : (tid :: b1 :: b2 :: body).drop (3 + (int_from_bytes [b1, b2] &&& 0x0fff)) =
      [] :=
    List.drop_eq_nil_of_le (by rw [← h]; simp; omega)
  have hbody : ((tid :: b1 :: b2 :: body).drop 3).take (int_from_bytes [b1, b2] &&& 0x0fff) =
      body := by
    rw [← h]
    simp
  rw [hbody, hdrop]
  simp

/-- Extraction from a buffer holding a strict prefix of a section: nothing
is emitted and the prefix is retained for later continuation. -/
theorem extractSections_partial (tid b1 b2 : Nat) (body : List Nat) (k : Nat)
    (secs : List Section)
    (h : body.length = int_from_bytes [b1, b2] &&& 0x0fff)
    (hk : k < (tid :: b1 :: b2 :: body).length) :
    extractSections (((tid :: b1 :: b2 :: body).take k).length + 1)
        ((tid :: b1 :: b2 :: body).take k) secs =
      (some ((tid :: b1 :: b2 :: body).take k), secs) := by
  rw [extractSections]
  by_cases h3 : k < 3
  · rw [if_pos]
    simp [List.length_take]
    omega
  · obtain ⟨k', rfl⟩ : ∃ k', k = k' + 3 := ⟨k - 3, by omega⟩
    have htake : (tid :: b1 :: b2 :: body).take (k' + 3) =
        tid :: b1 :: b2 :: body.take k' := by
      simp [List.take_succ_cons]
    rw [htake]
    have h1 : ¬ ((tid :: b1 :: b2 :: body.take k').length < 3) := by simp
    rw [if_neg h1]
    have h2 : (tid :: b1 :: b2 :: body.take k').length <
        3 + (int_from_bytes ((((tid :: b1 :: b2 :: body.take k')).drop 1).take 2) &&&
          0x0fff) := by
      simp only [List.length_cons] at hk
      simp only [List.drop_succ_cons, List.drop_zero, List.take_succ_cons,
        List.take_zero, List.length_cons, List.length_take, ← h]
      omega
    rw [if_pos h2]

/-- Feeding an unsynchronized parser a start packet with pointer field 0:
the state is whatever the extraction loop leaves of the payload after the
pointer byte. -/
theorem feed_fresh_pointer0 (bytes : List Nat) (secs : List Section) :
    SPState.feed ⟨none, secs⟩ true (some (0 :: bytes)) =
      .ok ⟨(extractSections (bytes.length + 1) bytes secs).1,
           (extractSections (bytes.length + 1) bytes secs).2⟩ := by
  unfold SPState.feed
  simp only [getByte, List.length_cons, Nat.zero_lt_succ, dif_pos, Bind.bind, Except.bind,
    Nat.add_zero, Nat.reduceAdd, List.drop_succ_cons, List.drop_zero]
  cases hE : extractSections (bytes.length + 1) bytes secs with
  | mk b' s' => simp [hE]

/-- Feeding a synchronized parser a continuation packet: the payload is
appended and the extraction loop runs on the combined buffer. -/
theorem feed_pending (pending payload : List Nat) (secs : List Section) :
    SPState.feed ⟨some pending, secs⟩ false (some payload) =
      .ok ⟨(extractSections ((pending ++ payload).length + 1) (pending ++ payload) secs).1,
           (extractSections ((pending ++ payload).length + 1) (pending ++ payload) secs).2⟩ := by
  unfold SPState.feed
  cases hE : extractSections ((pending ++ payload).length + 1) (pending ++ payload) secs with
  | mk b' s' =>
    simp only [List.length_append] at hE
    simp [hE]

/-- C2: a complete section (table-id byte, 2-byte header whose low 12 bits
declare the length, and exactly that many payload bytes) fed to a fresh
`SectionParser` in one call (start indicator set, pointer field 0) emits
exactly one `Section` with matching table id and payload; and splitting the
same bytes across two feeds (the first `k` bytes with the start indicator
set, the rest with it clear) emits a field-for-field identical `Section`. -/
theorem c2_section_roundtrip (tid b1 b2 : Nat) (body : List Nat) (k : Nat)
    (hlen : body.length = int_from_bytes [b1, b2] &&& 0x0fff)
    (hk : k < (tid :: b1 :: b2 :: body).length) :
    SPState.feed ⟨none, []⟩ true (some (0 :: tid :: b1 :: b2 :: body)) =
      .ok ⟨none, [Section.mk tid (int_from_bytes [b1, b2] >>> 15 != 0)
        (int_from_bytes [b1, b2] &&& 0x0fff) body]⟩ ∧
    ∃ s1, SPState.feed ⟨none, []⟩ true (some (0 :: (tid :: b1 :: b2 :: body).take k)) =
        .ok s1 ∧
      s1.feed false (some ((tid :: b1 :: b2 :: body).drop k)) =
        .ok ⟨none, [Section.mk tid (int_from_bytes [b1, b2] >>> 15 != 0)
          (int_from_bytes [b1, b2] &&& 0x0fff) body]⟩ := by
  constructor
  · rw [show (0 : Nat) :: tid :: b1 :: b2 :: body = 0 :: (tid :: b1 :: b2 :: body) from rfl,
      feed_fresh_pointer0, extractSections_exact tid b1 b2 body [] hlen]
  · refine ⟨⟨some ((tid :: b1 :: b2 :: body).take k), []⟩, ?_, ?_⟩
    · rw [feed_fresh_pointer0, extractSections_partial tid b1 b2 body k [] hlen hk]
    · rw [feed_pending, List.take_append_drop,
        extractSections_exact tid b1 b2 body [] hlen]

/-- C2 (witness): the section `[66, 128, 3, 7, 8, 9]` (table id 66,
declared length 3, body `[7, 8, 9]`), whole and split after byte 4. -/
theorem c2_section_roundtrip_witness :
    SPState.feed ⟨none, []⟩ true (some [0, 66, 128, 3, 7, 8, 9]) =
      .ok ⟨none, [Section.mk 66 true 3 [7, 8, 9]]⟩ ∧
    ∃ s1, SPState.feed ⟨none, []⟩ true (some [0, 66, 128, 3, 7]) = .ok s1 ∧
      s1.feed false (some [8, 9]) = .ok ⟨none, [Section.mk 66 true 3 [7, 8, 9]]⟩ :=
  c2_section_roundtrip 66 128 3 [7, 8, 9] 4 (by decide) (by decide)

/-! ## C6: clock-reference layout -/

/-- `parse_pcr` in arithmetic form: 33-bit base times 300 plus bits 14..6
of the 48-bit value. -/
theorem parse_pcr_eq (bs : List Nat) : parse_pcr bs = pcrBase bs * 300 + pcrExtMid bs := by
  unfold parse_pcr pcrBase pcrExtMid
  simp only [Nat.shiftRight_eq_div_pow, show (0x01ff : Nat) = 2 ^ 9 - 1 from rfl,
    Nat.and_pow_two_sub_one_eq_mod]

/-- C6 (counterexample): the claim says the extension is the lowest 9 bits
of the 48-bit field, the 6 reserved bits sitting between base and
extension.  On the adaptation field `[7, 0x10, 0, 0, 0, 0, 0, 1]` (length
7, PCR flag only, clock-reference bytes `00 00 00 00 00 01`) the claimed
decoding is `base * 300 + lowest9 = 0 * 300 + 1 = 1`, but the code decodes
the PCR as 0: it takes bits 14..6 as the extension (`(num >> 6) & 0x1ff`),
leaving the reserved bits at the bottom. -/
theorem c6_counterexample :
    parse_adaptation_field [7, 0x10, 0, 0, 0, 0, 0, 1] =
      .ok (some ⟨false, false, false, true, false, false, false, false,
        some 0, none, none, none, none⟩) ∧
    pcrBase [0, 0, 0, 0, 0, 1] * 300 + pcrExtLow [0, 0, 0, 0, 0, 1] = 1 ∧
    (0 : Nat) ≠ 1 := by
  decide

/-- C6 (amended): for a 6-byte clock-reference field in an adaptation
field with the corresponding flag set, `parse_adaptation_field` decodes it
as `base * 300 + extension`, where `base` is the top 33 bits of the 48-bit
big-endian value and `extension` is the 9 bits in positions 14..6 — i.e.
the field immediately above the bottom 6 bits, with the 6 reserved bits at
the very bottom, not between base and extension — for both the PCR and the
OPCR variants. -/
theorem c6_pcr_layout (fb : Nat) (p q tail : List Nat)
    (hp : p.length = 6) (hq : q.length = 6)
    (hpcr : (fb >>> 4) &&& 1 ≠ 0) (hopcr : (fb >>> 3) &&& 1 ≠ 0) :
    ∃ af, parse_adaptation_field ((13 + tail.length) :: fb :: (p ++ (q ++ tail))) =
        .ok (some af) ∧
      af.pcr = some (pcrBase p * 300 + pcrExtMid p) ∧
      af.opcr = some (pcrBase q * 300 + pcrExtMid q) := by
  have hslice1 : ((((13 + tail.length) :: fb :: (p ++ (q ++ tail))).drop 2).take 6) = p := by
    rw [List.drop_succ_cons, List.drop_succ_cons, List.drop_zero, ← hp, List.take_left]
  have hslice2 : ((((13 + tail.length) :: fb :: (p ++ (q ++ tail))).drop 8).take 6) = q := by
    have hdrop6 : (p ++ (q ++ tail)).drop 6 = q ++ tail := by
      rw [← hp, List.drop_left]
    rw [show (8 : Nat) = 2 + 6 from rfl, ← List.drop_drop,
      List.drop_succ_cons, List.drop_succ_cons, List.drop_zero, hdrop6, ← hq,
      List.take_left]
  unfold parse_adaptation_field
  simp only [getByte, List.length_cons, Nat.zero_lt_succ, dif_pos, Bind.bind, Except.bind,
    Nat.succ_lt_succ_iff, List.getElem_cons_zero, List.getElem_cons_succ]
  rw [if_neg (show ¬ (1 + (13 + tail.length) ≠ (p ++ (q ++ tail)).length + 1 + 1) from by
    simp [List.length_append, hp, hq]
    omega)]
  rw [if_neg (show ¬ (13 + tail.length = 0) from by omega)]
  refine ⟨_, rfl, ?_, ?_⟩
  · simp only [AdaptationField.pcr]
    rw [if_pos (show (fb >>> 4 &&& 1 != 0) = true from by simpa using hpcr)]
    rw [hslice1, parse_pcr_eq]
  · simp only [AdaptationField.opcr]
    rw [if_pos (show (fb >>> 3 &&& 1 != 0) = true from by simpa using hopcr)]
    rw [if_pos (show (fb >>> 4 &&& 1 != 0) = true from by simpa using hpcr)]
    rw [show (2 + 6 : Nat) = 8 from rfl, hslice2, parse_pcr_eq]

/-- C6 (witness): `c6_pcr_layout` on flag byte `0x18` (PCR and OPCR flags)
with clock-reference slices `00 00 00 00 00 01` and `00 00 00 00 02 00`. -/
theorem c6_pcr_layout_witness :
    ∃ af, parse_adaptation_field
        ((13 + List.length ([] : List Nat)) :: 0x18 ::
          ([0, 0, 0, 0, 0, 1] ++ ([0, 0, 0, 0, 2, 0] ++ []))) =
        .ok (some af) ∧
      af.pcr = some (pcrBase [0, 0, 0, 0, 0, 1] * 300 + pcrExtMid [0, 0, 0, 0, 0, 1]) ∧
      af.opcr = some (pcrBase [0, 0, 0, 0, 2, 0] * 300 + pcrExtMid [0, 0, 0, 0, 2, 0]) :=
  c6_pcr_layout 0x18 [0, 0, 0, 0, 0, 1] [0, 0, 0, 0, 2, 0] []
    (by decide) (by decide) (by decide) (by decide)

/-! ## C4: frame rejection conditions -/

theorem and_two_pow_ne_zero (n i : Nat) : n &&& 2 ^ i ≠ 0 ↔ n / 2 ^ i % 2 = 1 := by
  rw [Nat.and_two_pow]
  cases hb : n.testBit i with
  | false =>
    rw [Nat.testBit_to_div_mod] at hb
    simp only [decide_eq_false_iff_not] at hb
    simp [hb]
  | true =>
    rw [Nat.testBit_to_div_mod] at hb
    simp only [decide_eq_true_eq] at hb
    simp [hb, Nat.pos_iff_ne_zero]

set_option maxHeartbeats 2000000 in
/-- C4: a 188-byte frame is rejected by `parse_packet` (with the Python
`PacketParseError`, the spec's FrameError) exactly under the claim's
conditions, restated independently at byte level in `frameRejected`; when
none of them holds, `parse_packet` returns a `TSPacket`. -/
theorem c4_parse_packet_rejects (buffer : List Nat)
    (hlen : buffer.length = 188) (hbytes : ∀ b ∈ buffer, b < 256) :
    (parse_packet buffer = .error .packetParseError ↔ frameRejected buffer) ∧
      (¬ frameRejected buffer → ∃ pkt, parse_packet buffer = .ok pkt) := by
  rcases buffer with _ | ⟨b0, _ | ⟨b1, _ | ⟨b2, _ | ⟨b3, _ | ⟨b4, rest⟩⟩⟩⟩⟩ <;>
    simp only [List.length_nil, List.length_cons] at hlen <;> try omega
  have hb0 : b0 < 256 := hbytes b0 (by simp)
  have hb1 : b1 < 256 := hbytes b1 (by simp)
  have hb2 : b2 < 256 := hbytes b2 (by simp)
  have hb3 : b3 < 256 := hbytes b3 (by simp)
  have hb4 : b4 < 256 := hbytes b4 (by simp)
  have hFR : frameRejected (b0 :: b1 :: b2 :: b3 :: b4 :: rest) ↔
      (b0 ≠ 0x47 ∨ 128 ≤ b1 ∨ (0x0002 ≤ b1 % 32 * 256 + b2 ∧ b1 % 32 * 256 + b2 ≤ 0x000f) ∨
        b3 / 64 = 0x01 ∨ b3 / 16 % 4 = 0x00 ∨ (b3 / 16 % 4 = 0x02 ∧ b4 > 183) ∨
        (b3 / 16 % 4 = 0x03 ∧ b4 > 182)) := by
    simp [frameRejected]
  rw [hFR]
  have htake : (b0 :: b1 :: b2 :: b3 :: b4 :: rest).take 4 = [b0, b1, b2, b3] := rfl
  have hget4 : getByte (b0 :: b1 :: b2 :: b3 :: b4 :: rest) 4 = .ok b4 := by
    rw [getByte_of_lt (by simp)]
    simp
  have hH : int_from_bytes [b0, b1, b2, b3] = ((b0 * 256 + b1) * 256 + b2) * 256 + b3 := by
    simp [int_from_bytes]
  have e1 : (((b0 * 256 + b1) * 256 + b2) * 256 + b3) >>> 24 = b0 := by
    rw [Nat.shiftRight_eq_div_pow]
    omega
  have e2 : ((((b0 * 256 + b1) * 256 + b2) * 256 + b3) &&& 0x800000 != 0) =
      decide (128 ≤ b1) := by
    rw [Bool.eq_iff_iff]
    simp only [bne_iff_ne, decide_eq_true_eq]
    rw [show (0x800000 : Nat) = 2 ^ 23 from rfl, and_two_pow_ne_zero]
    constructor <;> (intro h; omega)
  have e3 : ((((b0 * 256 + b1) * 256 + b2) * 256 + b3) >>> 8) &&& 0x1fff =
      b1 % 32 * 256 + b2 := by
    rw [Nat.shiftRight_eq_div_pow, show (0x1fff : Nat) = 2 ^ 13 - 1 from rfl,
      Nat.and_pow_two_sub_one_eq_mod]
    omega
  have e4 : ((((b0 * 256 + b1) * 256 + b2) * 256 + b3) >>> 6) &&& 0x03 = b3 / 64 := by
    rw [Nat.shiftRight_eq_div_pow, show (0x03 : Nat) = 2 ^ 2 - 1 from rfl,
      Nat.and_pow_two_sub_one_eq_mod]
    omega
  have e5 : ((((b0 * 256 + b1) * 256 + b2) * 256 + b3) >>> 4) &&& 0x03 = b3 / 16 % 4 := by
    rw [Nat.shiftRight_eq_div_pow, show (0x03 : Nat) = 2 ^ 2 - 1 from rfl,
      Nat.and_pow_two_sub_one_eq_mod]
    omega
  have e6 : (b3 / 16 % 4 &&& 0x02 ≠ 0) ↔ (b3 / 16 % 4 = 2 ∨ b3 / 16 % 4 = 3) := by
    rw [show (0x02 : Nat) = 2 ^ 1 from rfl, and_two_pow_ne_zero]
    omega
  unfold parse_packet
  rw [htake]
  simp only [hH, hget4, Bind.bind, Except.bind, pure, Except.pure]
  simp only [e1, e2, e3, e4, e5, e6, decide_eq_true_eq, Option.getD_some, Option.getD_none]
  by_cases hafc : b3 / 16 % 4 = 2 ∨ b3 / 16 % 4 = 3 <;>
    [rw [if_pos hafc]; rw [if_neg hafc]] <;>
    split_ifs <;>
    refine ⟨?_, ?_⟩ <;>
    simp only [Except.ok.injEq, Except.error.injEq, reduceCtorEq, false_iff, true_iff,
      iff_true, iff_false, Option.getD_some, Option.getD_none, not_or, not_and, not_not,
      not_lt, not_le, ne_eq] <;>
    first
      | omega
      | (intro h; exact ⟨_, rfl⟩)

set_option maxRecDepth 4096 in
/-- C4 (witness): `c4_parse_packet_rejects` on a concrete accepted frame
(sync `0x47`, pid `0x11`, payload-only control) and a concrete rejected
frame (bad sync byte `0x46`). -/
theorem c4_parse_packet_rejects_witness :
    (∃ pkt, parse_packet (0x47 :: 0x40 :: 0x11 :: 0x10 :: List.replicate 184 0xff) =
      .ok pkt) ∧
    parse_packet (0x46 :: 0x40 :: 0x11 :: 0x10 :: List.replicate 184 0xff) =
      .error .packetParseError :=
  ⟨(c4_parse_packet_rejects _ (by decide) (by decide)).2 (by decide),
   (c4_parse_packet_rejects _ (by decide) (by decide)).1.mpr (by decide)⟩

/-! ## C5: sequential bit reads reconstruct the big-endian value -/

theorem int_from_bytes_foldl_acc (l : List Nat) (acc : Nat) :
    l.foldl (fun a b => a * 256 + b) acc = acc * 256 ^ l.length + int_from_bytes l := by
  induction l generalizing acc with
  | nil => simp [int_from_bytes]
  | cons x t ih =>
    simp only [List.foldl_cons, List.length_cons, int_from_bytes]
    rw [ih (acc * 256 + x), ih (0 * 256 + x)]
    ring

theorem int_from_bytes_cons (x : Nat) (t : List Nat) :
    int_from_bytes (x :: t) = x * 256 ^ t.length + int_from_bytes t := by
  show (x :: t).foldl (fun a b => a * 256 + b) 0 = _
  rw [List.foldl_cons, int_from_bytes_foldl_acc]
  ring_nf

theorem int_from_bytes_lt {l : List Nat} (hl : ∀ b ∈ l, b < 256) :
    int_from_bytes l < 256 ^ l.length := by
  induction l with
  | nil => simp [int_from_bytes]
  | cons x t ih =>
    rw [int_from_bytes_cons, List.length_cons, pow_succ]
    have hx : x < 256 := hl x (by simp)
    have ht : int_from_bytes t < 256 ^ t.length := ih (fun b hb => hl b (by simp [hb]))
    calc x * 256 ^ t.length + int_from_bytes t
        < x * 256 ^ t.length + 256 ^ t.length := by omega
      _ = (x + 1) * 256 ^ t.length := by ring
      _ ≤ 256 * 256 ^ t.length := by
          exact Nat.mul_le_mul_right _ (by omega)
      _ = 256 ^ t.length * 256 := by ring

theorem int_from_bytes_append (l₁ l₂ : List Nat) :
    int_from_bytes (l₁ ++ l₂) = int_from_bytes l₁ * 256 ^ l₂.length + int_from_bytes l₂ := by
  show (l₁ ++ l₂).foldl (fun a b => a * 256 + b) 0 = _
  rw [List.foldl_append, int_from_bytes_foldl_acc]
  rfl

theorem shiftLeft_lor_eq_add (a b k : Nat) (hb : b < 2 ^ k) :
    a <<< k ||| b = a * 2 ^ k + b := by
  rw [Nat.shiftLeft_eq, mul_comm]
  exact (Nat.mul_add_lt_is_or hb a).symm

theorem readRest_ok {l : List Nat} (hl : ∀ b ∈ l, b < 256) {pos count : Nat} (acc : Nat)
    (h : pos + count ≤ l.length) :
    BytesParser.readRest l pos count acc =
      .ok (acc * 256 ^ count + int_from_bytes ((l.drop pos).take count)) := by
  induction count generalizing pos acc with
  | zero => simp [BytesParser.readRest, int_from_bytes]
  | succ c ih =>
    have hpos : pos < l.length := by omega
    unfold BytesParser.readRest
    rw [getByte_of_lt hpos]
    simp only [Bind.bind, Except.bind]
    rw [ih ((acc <<< 8) ||| l[pos]) (by omega)]
    have hx : l[pos] < 256 := hl _ (List.getElem_mem hpos)
    rw [shiftLeft_lor_eq_add _ _ 8 (by exact hx)]
    have hslice : (l.drop pos).take (c + 1) = l[pos] :: ((l.drop (pos + 1)).take c) := by
      rw [List.drop_eq_getElem_cons hpos, List.take_succ_cons]
    rw [hslice, int_from_bytes_cons]
    have hlen2 : ((l.drop (pos + 1)).take c).length = c := by
      simp [List.length_take, List.length_drop]
      omega
    rw [hlen2]
    congr 1
    rw [show ((2 : Nat) ^ 8) = 256 from rfl]
    ring

theorem mod_mul_split (a r q M : Nat) (hr : r < M) :
    (a * M + r) % (q * M) = a % q * M + r := by
  rcases Nat.eq_zero_or_pos q with hq | hq
  · subst hq
    simp [Nat.mod_zero]
  · have h1 : a * M + r = (a % q * M + r) + (a / q) * (q * M) := by
      conv_lhs => rw [← Nat.div_add_mod a q]
      ring
    rw [h1, Nat.add_mul_mod_self_right]
    refine Nat.mod_eq_of_lt ?_
    have hm : a % q < q := Nat.mod_lt _ hq
    calc a % q * M + r < a % q * M + M := by omega
      _ = (a % q + 1) * M := by ring
      _ ≤ q * M := Nat.mul_le_mul_right _ (by omega)

theorem mod_pow_div (x a b : Nat) :
    x % 2 ^ (a + b) / 2 ^ b = x / 2 ^ b % 2 ^ a := by
  have hb : 0 < (2 : Nat) ^ b := Nat.pos_pow_of_pos b (by omega)
  rw [pow_add, mul_comm, Nat.mod_mul, Nat.add_mul_div_left _ _ hb,
    Nat.div_eq_of_lt (Nat.mod_lt _ hb)]
  omega

theorem pow_256_eq (k : Nat) : (256 : Nat) ^ k = 2 ^ (8 * k) := by
  rw [pow_mul]
  norm_num

/-- The value a successful `get_int` extracts, in purely arithmetic form:
reading `n` bits at absolute bit position `8 * bp + bit` yields the `n`-bit
field of the whole buffer's big-endian value that ends `8 * length - (pos + n)`
bits above the bottom. -/
theorem get_int_value {bs : List Nat} (hbs : ∀ b ∈ bs, b < 256)
    (bp bit n extra endbitpos : Nat) (hbit : bit < 8) (hn : 1 ≤ n)
    (hsplit : 8 * extra + endbitpos = bit + n) (h1 : 1 ≤ endbitpos) (h8 : endbitpos ≤ 8)
    (hfit : 8 * bp + bit + n ≤ 8 * bs.length) (hbp : bp < bs.length) :
    (bs[bp] % 2 ^ (8 - bit) * 256 ^ extra +
        int_from_bytes ((bs.drop (bp + 1)).take extra)) / 2 ^ (8 - endbitpos) =
      int_from_bytes bs / 2 ^ (8 * bs.length - (8 * bp + bit + n)) % 2 ^ n := by
  have heL : bp + extra + 1 ≤ bs.length := by omega
  have hslcons : (bs.drop bp).take (extra + 1) = bs[bp] :: (bs.drop (bp + 1)).take extra := by
    rw [List.drop_eq_getElem_cons hbp, List.take_succ_cons]
  have hinlen : ((bs.drop (bp + 1)).take extra).length = extra := by
    simp only [List.length_take, List.length_drop]
    omega
  have hsllen : ((bs.drop bp).take (extra + 1)).length = extra + 1 := by
    simp only [List.length_take, List.length_drop]
    omega
  have hS : int_from_bytes ((bs.drop bp).take (extra + 1)) =
      bs[bp] * 256 ^ extra + int_from_bytes ((bs.drop (bp + 1)).take extra) := by
    rw [hslcons, int_from_bytes_cons, hinlen]
  have hS2lt : int_from_bytes ((bs.drop (bp + 1)).take extra) < 256 ^ extra := by
    have h := int_from_bytes_lt
      (l := (bs.drop (bp + 1)).take extra)
      (fun b hb => hbs b (List.drop_subset _ _ (List.take_subset _ _ hb)))
    rwa [hinlen] at h
  have hSlt : int_from_bytes ((bs.drop bp).take (extra + 1)) < 256 ^ (extra + 1) := by
    have h := int_from_bytes_lt
      (l := (bs.drop bp).take (extra + 1))
      (fun b hb => hbs b (List.drop_subset _ _ (List.take_subset _ _ hb)))
    rwa [hsllen] at h
  -- Step A: masking the first byte = reducing the slice value mod its
  -- post-cursor bit width.
  have hA : bs[bp] % 2 ^ (8 - bit) * 256 ^ extra +
      int_from_bytes ((bs.drop (bp + 1)).take extra) =
      int_from_bytes ((bs.drop bp).take (extra + 1)) % 2 ^ (8 * (extra + 1) - bit) := by
    have h2 : (2 : Nat) ^ (8 * (extra + 1) - bit) = 2 ^ (8 - bit) * 256 ^ extra := by
      rw [pow_256_eq, ← pow_add]
      congr 1
      omega
    rw [h2, hS, mod_mul_split _ _ _ _ hS2lt]
  -- Step B: the slice value as a chunk of the whole buffer's value.
  have hB : int_from_bytes ((bs.drop bp).take (extra + 1)) =
      int_from_bytes bs / 2 ^ (8 * (bs.length - (bp + extra + 1))) % 2 ^ (8 * (extra + 1)) := by
    have hsplit1 : int_from_bytes bs =
        int_from_bytes (bs.take (bp + extra + 1)) * 256 ^ (bs.length - (bp + extra + 1)) +
          int_from_bytes (bs.drop (bp + extra + 1)) := by
      conv_lhs => rw [← List.take_append_drop (bp + extra + 1) bs]
      rw [int_from_bytes_append, List.length_drop]
    have hdrop_lt : int_from_bytes (bs.drop (bp + extra + 1)) <
        256 ^ (bs.length - (bp + extra + 1)) := by
      have h := int_from_bytes_lt (l := bs.drop (bp + extra + 1))
        (fun b hb => hbs b (List.drop_subset _ _ hb))
      rwa [List.length_drop] at h
    have hdiv : int_from_bytes bs / 2 ^ (8 * (bs.length - (bp + extra + 1))) =
        int_from_bytes (bs.take (bp + extra + 1)) := by
      rw [hsplit1, ← pow_256_eq, mul_comm (int_from_bytes (bs.take (bp + extra + 1)))]
      rw [Nat.mul_add_div (by positivity)]
      rw [Nat.div_eq_of_lt hdrop_lt]
      omega
    have htakee : bs.take (bp + extra + 1) = bs.take bp ++ (bs.drop bp).take (extra + 1) := by
      rw [show bp + extra + 1 = bp + (extra + 1) from by omega, List.take_add]
    rw [hdiv, htakee, int_from_bytes_append, hsllen, pow_256_eq, mul_comm, Nat.mul_add_mod]
    rw [Nat.mod_eq_of_lt (by rw [← pow_256_eq]; exact hSlt)]
  rw [hA, hB, Nat.mod_mod_of_dvd _ (pow_dvd_pow 2 (by omega)),
    show 8 * (extra + 1) - bit = n + (8 - endbitpos) from by omega,
    mod_pow_div, Nat.div_div_eq_div_mul, ← pow_add,
    show 8 * (bs.length - (bp + extra + 1)) + (8 - endbitpos) =
      8 * bs.length - (8 * bp + bit + n) from by omega]

/-- Full characterization of a successful in-bounds `get_int`: the value is
the corresponding big-endian bit field of the whole buffer and the cursor
advances by exactly `n` bits. -/
theorem get_int_spec {bs : List Nat} (hbs : ∀ b ∈ bs, b < 256) (bp bit n : Nat)
    (hbit : bit < 8) (hn : 1 ≤ n) (hfit : 8 * bp + bit + n ≤ 8 * bs.length) :
    (BytesParser.mk bs bp bit).get_int n =
      .ok (int_from_bytes bs / 2 ^ (8 * bs.length - (8 * bp + bit + n)) % 2 ^ n,
           BytesParser.mk bs (bp + (bit + n) / 8) ((bit + n) % 8)) := by
  have hbp : bp < bs.length := by omega
  unfold BytesParser.get_int
  rw [getByte_of_lt hbp]
  simp only [Bind.bind, Except.bind]
  by_cases h8 : (bit + n) % 8 = 0
  · rw [if_pos h8, if_pos h8, Nat.and_pow_two_sub_one_eq_mod,
      readRest_ok hbs _ (by omega)]
    simp only []
    rw [Nat.shiftRight_eq_div_pow,
      get_int_value hbs bp bit n ((bit + n) / 8 - 1) 8 hbit hn (by omega) (by omega)
        (by omega) hfit hbp]
    rfl
  · rw [if_neg h8, if_neg h8, Nat.and_pow_two_sub_one_eq_mod,
      readRest_ok hbs _ (by omega)]
    simp only []
    rw [Nat.shiftRight_eq_div_pow,
      get_int_value hbs bp bit n ((bit + n) / 8) ((bit + n) % 8) hbit hn (by omega)
        (by omega) (by omega) hfit hbp]
    rfl

/-- Generalized invariant for C5: from any valid cursor position, reading a
list of positive widths that exactly covers the rest of the buffer succeeds,
and the shift-or fold of the values equals the remaining (low) bits of the
buffer's big-endian value. -/
theorem readWidths_spec (bs : List Nat) (hbs : ∀ b ∈ bs, b < 256) (ws : List Nat)
    (hws : ∀ w ∈ ws, 0 < w) :
    ∀ bp bit, bit < 8 → 8 * bp + bit + ws.sum = 8 * bs.length →
      ∃ vs, readWidths (BytesParser.mk bs bp bit) ws = .ok vs ∧
        shiftOrFold vs ws = int_from_bytes bs % 2 ^ (8 * bs.length - (8 * bp + bit)) := by
  induction ws with
  | nil =>
    intro bp bit hbit hsum
    refine ⟨[], rfl, ?_⟩
    rw [List.sum_nil] at hsum
    rw [show 8 * bs.length - (8 * bp + bit) = 0 from by omega]
    simp [shiftOrFold, Nat.mod_one]
  | cons w ws ih =>
    intro bp bit hbit hsum
    rw [List.sum_cons] at hsum
    have hw : 0 < w := hws w (by simp)
    have hfit : 8 * bp + bit + w ≤ 8 * bs.length := by omega
    have hget := get_int_spec hbs bp bit w hbit hw hfit
    have hbit' : (bit + w) % 8 < 8 := Nat.mod_lt _ (by omega)
    obtain ⟨vs, hvs, hfold⟩ := ih (fun x hx => hws x (by simp [hx])) (bp + (bit + w) / 8)
      ((bit + w) % 8) hbit' (by omega)
    rw [show 8 * bs.length - (8 * (bp + (bit + w) / 8) + (bit + w) % 8) =
      8 * bs.length - (8 * bp + bit + w) from by omega] at hfold
    refine ⟨(int_from_bytes bs / 2 ^ (8 * bs.length - (8 * bp + bit + w)) % 2 ^ w) :: vs,
      ?_, ?_⟩
    · unfold readWidths
      rw [hget]
      simp only [Bind.bind, Except.bind]
      rw [hvs]
    · show (int_from_bytes bs / 2 ^ (8 * bs.length - (8 * bp + bit + w)) % 2 ^ w) <<< ws.sum |||
        shiftOrFold vs ws = _
      rw [hfold, show ws.sum = 8 * bs.length - (8 * bp + bit + w) from by omega,
        shiftLeft_lor_eq_add _ _ _
          (Nat.mod_lt _ (Nat.pos_pow_of_pos _ (by omega))),
        show 8 * bs.length - (8 * bp + bit) = (8 * bs.length - (8 * bp + bit + w)) + w
          from by omega,
        pow_add, Nat.mod_mul]
      ring

/-- C5: for every byte buffer and every sequence of positive bit-widths
whose sum is exactly the buffer's bit length, reading the widths in order
with `get_int` on a fresh reader succeeds, and folding the values by
shift-and-or (each shifted left by the sum of the remaining widths) equals
the whole buffer interpreted as one big-endian unsigned integer. -/
theorem c5_bitreader_reconstructs (bs ws : List Nat)
    (hbs : ∀ b ∈ bs, b < 256) (hws : ∀ w ∈ ws, 0 < w)
    (hsum : ws.sum = 8 * bs.length) :
    ∃ vs, readWidths (BytesParser.mk bs 0 0) ws = .ok vs ∧
      shiftOrFold vs ws = int_from_bytes bs := by
  obtain ⟨vs, hvs, hfold⟩ := readWidths_spec bs hbs ws hws 0 0 (by omega) (by omega)
  refine ⟨vs, hvs, ?_⟩
  rw [hfold, show 8 * bs.length - (8 * 0 + 0) = 8 * bs.length from by omega]
  exact Nat.mod_eq_of_lt (by rw [← pow_256_eq]; exact int_from_bytes_lt hbs)

/-- C5 (witness): `c5_bitreader_reconstructs` on the buffer `[171, 205]`
(`0xABCD`) with widths `[4, 7, 5]`. -/
theorem c5_bitreader_reconstructs_witness :
    ∃ vs, readWidths (BytesParser.mk [171, 205] 0 0) [4, 7, 5] = .ok vs ∧
      shiftOrFold vs [4, 7, 5] = int_from_bytes [171, 205] :=
  c5_bitreader_reconstructs [171, 205] [4, 7, 5] (by decide) (by decide) (by decide)

/-! ## C1: service-identity extraction -/

theorem foldl_min_le_init (t : List Nat) (a : Nat) : t.foldl min a ≤ a := by
  induction t generalizing a with
  | nil => simp
  | cons x t ih =>
    calc (x :: t).foldl min a = t.foldl min (min a x) := by simp
      _ ≤ min a x := ih _
      _ ≤ a := Nat.min_le_left _ _

theorem foldl_min_le_mem {t : List Nat} {x : Nat} (hx : x ∈ t) (a : Nat) :
    t.foldl min a ≤ x := by
  induction t generalizing a with
  | nil => cases hx
  | cons y t ih =>
    rcases List.mem_cons.mp hx with rfl | hx'
    · calc (x :: t).foldl min a = t.foldl min (min a x) := by simp
        _ ≤ min a x := foldl_min_le_init _ _
        _ ≤ x := Nat.min_le_right _ _
    · simpa using ih hx' (min a y)

theorem foldl_min_mem (t : List Nat) (a : Nat) : t.foldl min a = a ∨ t.foldl min a ∈ t := by
  induction t generalizing a with
  | nil => simp
  | cons y t ih =>
    have h : (y :: t).foldl min a = t.foldl min (min a y) := by simp
    rcases ih (min a y) with h' | h'
    · rcases Nat.le_total a y with hay | hay
      · left
        rw [h, h', Nat.min_eq_left hay]
      · right
        rw [h, h', Nat.min_eq_right hay]
        simp
    · right
      rw [h]
      simp [h']

theorem pyMin_mem {l : List Nat} (h : l ≠ []) : pyMin l ∈ l := by
  match l with
  | x :: t =>
    show t.foldl min x ∈ x :: t
    rcases foldl_min_mem t x with h' | h' <;> simp [h']

theorem pyMin_le {l : List Nat} {x : Nat} (hx : x ∈ l) : pyMin l ≤ x := by
  match l with
  | y :: t =>
    show t.foldl min y ≤ x
    rcases List.mem_cons.mp hx with rfl | hx'
    · exact foldl_min_le_init t x
    · exact foldl_min_le_mem hx' y

theorem pyMin_perm {l l' : List Nat} (hp : l.Perm l') (h : l ≠ []) :
    pyMin l = pyMin l' := by
  have h' : l' ≠ [] := by
    intro hnil
    exact h (List.Perm.eq_nil (hnil ▸ hp))
  exact Nat.le_antisymm
    (pyMin_le (hp.mem_iff.mpr (pyMin_mem h')))
    (pyMin_le (hp.mem_iff.mp (pyMin_mem h)))

theorem collectServiceIds_all_ok {l : List SDTService} {ids : List Nat}
    (h : collectServiceIds l = .ok ids) :
    ∀ s ∈ l, ∃ b, serviceQualifies s = .ok b := by
  induction l generalizing ids with
  | nil => simp
  | cons s rest ih =>
    intro s' hs'
    unfold collectServiceIds at h
    cases hq : serviceQualifies s with
    | error e => rw [hq] at h; simp [Bind.bind, Except.bind] at h
    | ok b =>
      rw [hq] at h
      simp only [Bind.bind, Except.bind] at h
      cases hrest : collectServiceIds rest with
      | error e => rw [hrest] at h; simp at h
      | ok ids' =>
        rw [hrest] at h
        rcases List.mem_cons.mp hs' with rfl | hs''
        · exact ⟨b, hq⟩
        · exact ih hrest s' hs''

theorem collectServiceIds_ok_of_all {l : List SDTService}
    (h : ∀ s ∈ l, ∃ b, serviceQualifies s = .ok b) :
    ∃ ids, collectServiceIds l = .ok ids := by
  induction l with
  | nil => exact ⟨[], rfl⟩
  | cons s rest ih =>
    obtain ⟨b, hb⟩ := h s (by simp)
    obtain ⟨ids, hids⟩ := ih (fun s' hs' => h s' (by simp [hs']))
    refine ⟨if b then s.service_id :: ids else ids, ?_⟩
    unfold collectServiceIds
    rw [hb]
    simp only [Bind.bind, Except.bind]
    rw [hids]

theorem collectServiceIds_filter {l : List SDTService} {ids : List Nat}
    (h : collectServiceIds l = .ok ids) :
    ids = (l.filter
      (fun s => serviceQualifies s == Except.ok true)).map SDTService.service_id := by
  induction l generalizing ids with
  | nil => simpa [collectServiceIds] using h.symm
  | cons s rest ih =>
    unfold collectServiceIds at h
    cases hq : serviceQualifies s with
    | error e => rw [hq] at h; simp [Bind.bind, Except.bind] at h
    | ok b =>
      rw [hq] at h
      simp only [Bind.bind, Except.bind] at h
      cases hrest : collectServiceIds rest with
      | error e => rw [hrest] at h; simp at h
      | ok ids' =>
        rw [hrest] at h
        simp only [Except.ok.injEq] at h
        subst h
        rw [List.filter_cons]
        cases b with
        | true => simp [hq, ih hrest]
        | false => simp [hq, ih hrest]

/-- C1: on a section with the actual-transport-stream table id 66 whose
payload decodes to an SDT and whose comprehension over the services
succeeds, `feed_section` of the service-identity extractor: (1) considers
exactly the services whose descriptor loop contains a tag-72 descriptor
with service type 1; (2) if any qualify, records the table's originating
network id together with the minimum qualifying service id; (3) if none
qualify, leaves the extractor state (hence its `done`) unchanged; and (4)
the outcome is independent of the order of the service entries. -/
theorem c1_nidsid_extraction (st : NIDState) (sec : Section) (sdt : SDT) (ids : List Nat)
    (htid : sec.table_id = 66)
    (hsdt : parse_sdt sec.payload = .ok sdt)
    (hids : collectServiceIds sdt.services = .ok ids) :
    (ids = (sdt.services.filter
        (fun s => serviceQualifies s == Except.ok true)).map SDTService.service_id) ∧
    (ids ≠ [] → st.feed_section sec =
      ({ network_id := some sdt.original_network_id, service_id := some (pyMin ids) },
        none)) ∧
    (ids = [] → st.feed_section sec = (st, none)) ∧
    (∀ svs', sdt.services.Perm svs' →
      ∃ ids', collectServiceIds svs' = .ok ids' ∧ ids'.Perm ids ∧
        (ids ≠ [] → pyMin ids' = pyMin ids)) := by
  have hfeed : ∀ P : NIDState × Option PyError → Prop,
      (P (if ids.isEmpty then (st, none)
          else ({ network_id := some sdt.original_network_id,
                  service_id := some (pyMin ids) }, none))) →
      P (st.feed_section sec) := by
    intro P hP
    unfold NIDState.feed_section
    rw [if_neg (by omega : ¬ sec.table_id ≠ 66), hsdt]
    simp only []
    rw [hids]
    exact hP
  refine ⟨collectServiceIds_filter hids, ?_, ?_, ?_⟩
  · intro hne
    refine hfeed (fun r => r = _) ?_
    rw [if_neg (by simpa using hne)]
  · intro hnil
    refine hfeed (fun r => r = _) ?_
    rw [if_pos (by simp [hnil])]
  · intro svs' hperm
    have hall : ∀ s ∈ svs', ∃ b, serviceQualifies s = .ok b :=
      fun s hs => collectServiceIds_all_ok hids s (hperm.mem_iff.mpr hs)
    obtain ⟨ids', hids'⟩ := collectServiceIds_ok_of_all hall
    have hperm' : ids'.Perm ids := by
      rw [collectServiceIds_filter hids', collectServiceIds_filter hids]
      exact (hperm.symm.filter _).map _
    refine ⟨ids', hids', hperm', fun hne => pyMin_perm hperm' ?_⟩
    intro hnil
    rw [hnil] at hperm'
    exact hne (List.Perm.eq_nil hperm'.symm)

/-- C1 (witness): a hand-built service-list section (table id 66, network
id 4) with two services — id 9 carrying only an unrelated tag-0x50
descriptor and id 5 carrying the tag-72 descriptor with service type 1 —
drives the extractor to record network id 4 and service id 5, ignoring the
non-qualifying entry. -/
theorem c1_nidsid_extraction_witness :
    NIDState.feed_section ⟨none, none⟩
        ⟨66, true, 27,
          [0, 1, 1, 0, 0, 0, 4, 0,
           0, 9, 0, 0, 4, 0x50, 2, 170, 187,
           0, 5, 0, 0, 5, 72, 3, 1, 0, 0]⟩ =
      ({ network_id := some 4, service_id := some 5 }, none) :=
  (c1_nidsid_extraction ⟨none, none⟩
      ⟨66, true, 27, [0, 1, 1, 0, 0, 0, 4, 0, 0, 9, 0, 0, 4, 0x50, 2, 170, 187,
        0, 5, 0, 0, 5, 72, 3, 1, 0, 0]⟩
      ⟨1, 0, true, 0, 0, 4,
        [⟨9, 0, 0, 0, 0, 0, 4, [0x50, 2, 170, 187]⟩,
         ⟨5, 0, 0, 0, 0, 0, 5, [72, 3, 1, 0, 0]⟩]⟩
      [5] rfl (by decide) (by decide)).2.1 (by decide)

/-! ## C10: at most one section delivered per feed -/

/-- C10: one call to `SectionPacketProcessor.feed` with a matching-pid
packet delivers at most one completed section to `feed_section` — the
oldest one pending in the reassembler queue (`parsed_sections` is
newest-first; `get_section` pops the last element).  If the queue is empty
nothing is delivered; otherwise exactly the oldest section is delivered and
every other queued section stays queued (`dropLast`), to be delivered one
per later matching packet (and never, if no such packet arrives). -/
theorem c10_spp_one_section {τ : Type} (fs : τ → Section → τ × Option PyError)
    (st : SPPState τ) (packet : TSPacket) (sp : SPState)
    (hpid : packet.pid = st.pid)
    (hfeed : st.sectionParser.feed packet.payload_unit_start_indicator packet.payload =
      .ok sp) :
    (sp.get_section = (sp.parsed_sections.getLast?,
        { sp with parsed_sections := sp.parsed_sections.dropLast })) ∧
    (sp.parsed_sections = [] →
      sppFeed fs st packet = ({ st with sectionParser := sp }, none)) ∧
    (∀ sec, sp.parsed_sections.getLast? = some sec →
      sppFeed fs st packet =
        ({ st with
            sectionParser := { sp with parsed_sections := sp.parsed_sections.dropLast },
            inner := (fs st.inner sec).1 },
          (fs st.inner sec).2)) := by
  obtain ⟨buf, secs⟩ := sp
  have hget : SPState.get_section ⟨buf, secs⟩ = (secs.getLast?, ⟨buf, secs.dropLast⟩) := by
    unfold SPState.get_section
    cases hl : secs.getLast? with
    | none =>
      rw [List.getLast?_eq_none_iff] at hl
      subst hl
      simp
    | some sec => rfl
  refine ⟨hget, ?_, ?_⟩
  · intro hnil
    simp only [] at hnil
    subst hnil
    unfold sppFeed
    rw [if_neg (by omega : ¬ packet.pid ≠ st.pid), hfeed]
    simp only []
    rw [hget]
    rfl
  · intro sec hsec
    simp only [] at hsec
    unfold sppFeed
    rw [if_neg (by omega : ¬ packet.pid ≠ st.pid), hfeed]
    simp only []
    rw [hget, hsec]

set_option maxRecDepth 8192 in
/-- C10 (witness): a single packet whose payload completes two sections
(table ids 66 then 67, both empty): the first matching feed delivers only
the oldest (66), leaving 67 queued; a second matching packet that adds
nothing (pure stuffing) delivers 67. -/
theorem c10_spp_one_section_witness :
    sppFeed (fun acc sec => (acc ++ [sec], none))
        ⟨0x11, ⟨none, []⟩, ([] : List Section)⟩
        ⟨false, true, false, 0x11, 0, 1, 0, none,
          some ([0, 66, 128, 0, 67, 128, 0] ++ List.replicate 177 0xff)⟩ =
      (⟨0x11, ⟨none, [Section.mk 67 true 0 []]⟩, [Section.mk 66 true 0 []]⟩, none) ∧
    sppFeed (fun acc sec => (acc ++ [sec], none))
        ⟨0x11, ⟨none, [Section.mk 67 true 0 []]⟩, [Section.mk 66 true 0 []]⟩
        ⟨false, false, false, 0x11, 0, 1, 0, none, some (List.replicate 184 0xff)⟩ =
      (⟨0x11, ⟨none, []⟩, [Section.mk 66 true 0 [], Section.mk 67 true 0 []]⟩, none) :=
  ⟨(c10_spp_one_section (fun acc sec => (acc ++ [sec], none)) _ _
      ⟨none, [Section.mk 67 true 0 [], Section.mk 66 true 0 []]⟩ rfl (by decide)).2.2
      (Section.mk 66 true 0 []) (by decide),
   (c10_spp_one_section (fun acc sec => (acc ++ [sec], none)) _ _
      ⟨none, [Section.mk 67 true 0 []]⟩ rfl (by decide)).2.2
      (Section.mk 67 true 0 []) (by decide)⟩

/-! ## C3: done decoders are never fed again; all-done stops the run -/

/-- Within one packet's dispatch, a processor that is done is not fed
(its flag is `false`) and its state is untouched. -/
theorem dispatchStep_done {σ : Type} (feedI : σ → TSPacket → σ × Option PyError)
    (doneI : σ → Bool) (packet : TSPacket) :
    ∀ (ss : List σ) (i : Nat) (s : σ), ss[i]? = some s → doneI s = true →
      (dispatchStep feedI doneI packet ss).1[i]? = some s ∧
      (dispatchStep feedI doneI packet ss).2.1[i]? = some false := by
  intro ss
  induction ss with
  | nil => intro i s hi _; simp at hi
  | cons s0 rest ih =>
    intro i s hi hdone
    unfold dispatchStep
    cases hD : dispatchStep feedI doneI packet rest with
    | mk rest' r2 =>
      obtain ⟨fed', e'⟩ := r2
      cases i with
      | zero =>
        simp only [List.getElem?_cons_zero, Option.some.injEq] at hi
        subst hi
        rw [if_pos hdone]
        simp
      | succ i' =>
        simp only [List.getElem?_cons_succ] at hi
        by_cases hd0 : doneI s0
        · rw [if_pos hd0]
          have := ih i' s hi hdone
          rw [hD] at this
          simpa using this
        · rw [if_neg hd0]
          cases hF : feedI s0 packet with
          | mk s0' e0 =>
            cases e0 with
            | none =>
              have := ih i' s hi hdone
              rw [hD] at this
              simpa using this
            | some e =>
              refine ⟨by simpa using hi, ?_⟩
              simp only [List.getElem?_cons_succ]
              have hlt : i' < rest.length := (List.getElem?_eq_some_iff.mp hi).1
              simp [List.getElem?_replicate, hlt]

/-- A processor already done keeps its exact state through a whole run and
is never fed on any packet of the run. -/
theorem parseLoop_frozen {σ : Type} (feedI : σ → TSPacket → σ × Option PyError)
    (doneI : σ → Bool) :
    ∀ (fuel : Nat) (src : List Nat) (ss : List σ) (i : Nat) (s : σ),
      ss[i]? = some s → doneI s = true →
      (parseLoop feedI doneI fuel src ss).1[i]? = some s ∧
      ∀ fl ∈ (parseLoop feedI doneI fuel src ss).2.1, fl[i]? = some false := by
  intro fuel
  induction fuel with
  | zero =>
    intro src ss i s hi _
    exact ⟨hi, by simp [parseLoop]⟩
  | succ fuel ih =>
    intro src ss i s hi hdone
    unfold parseLoop
    cases hnp : nextPacket src with
    | error e => exact ⟨hi, by simp⟩
    | ok o =>
      cases o with
      | none => exact ⟨hi, by simp⟩
      | some p =>
        obtain ⟨packet, src'⟩ := p
        simp only []
        by_cases hall : ss.all doneI
        · rw [if_pos hall]
          exact ⟨hi, by simp⟩
        · rw [if_neg hall]
          obtain ⟨hst, hfed⟩ := dispatchStep_done feedI doneI packet ss i s hi hdone
          cases hD : dispatchStep feedI doneI packet ss with
          | mk ss' r2 =>
            obtain ⟨fed, e?⟩ := r2
            rw [hD] at hst hfed
            simp only [] at hst hfed
            cases e? with
            | some e =>
              refine ⟨hst, ?_⟩
              intro fl hfl
              simp only [List.mem_singleton] at hfl
              subst hfl
              exact hfed
            | none =>
              simp only []
              have hrec := ih src' ss' i s hst hdone
              refine ⟨hrec.1, ?_⟩
              intro fl hfl
              simp only [List.mem_cons] at hfl
              rcases hfl with rfl | hfl
              · exact hfed
              · exact hrec.2 fl hfl

/-- When every processor is already done, a run leaves all states untouched
and feeds nothing, for any source and any fuel. -/
theorem parseLoop_all_done {σ : Type} (feedI : σ → TSPacket → σ × Option PyError)
    (doneI : σ → Bool) (fuel : Nat) (src : List Nat) (ss : List σ)
    (hall : ss.all doneI = true) :
    (parseLoop feedI doneI fuel src ss).1 = ss ∧
    (parseLoop feedI doneI fuel src ss).2.1 = [] := by
  cases fuel with
  | zero => simp [parseLoop]
  | succ fuel =>
    unfold parseLoop
    cases hnp : nextPacket src with
    | error e => simp
    | ok o =>
      cases o with
      | none => simp
      | some p =>
        obtain ⟨packet, src'⟩ := p
        simp only []
        rw [if_pos hall]
        simp

/-- C3: in every run of the dispatcher (any fuel, source and processor
list — and hence, because the recursion passes every intermediate
configuration back to `parseLoop`, from any point of a run onward): (1) a
processor whose `done` is true is never fed on any dispatched packet (its
fed-flag is `false` in every per-packet log) and its state survives the run
unchanged; and (2) as soon as every registered processor reports done, the
run stops feeding entirely — the states come back untouched and the log is
empty — even though unread bytes may remain in the source. -/
theorem c3_done_never_fed {σ : Type} (feedI : σ → TSPacket → σ × Option PyError)
    (doneI : σ → Bool) (fuel : Nat) (src : List Nat) (ss : List σ) :
    (∀ (i : Nat) (s : σ), ss[i]? = some s → doneI s = true →
      (parseLoop feedI doneI fuel src ss).1[i]? = some s ∧
      ∀ fl ∈ (parseLoop feedI doneI fuel src ss).2.1, fl[i]? = some false) ∧
    (ss.all doneI = true →
      (parseLoop feedI doneI fuel src ss).1 = ss ∧
      (parseLoop feedI doneI fuel src ss).2.1 = []) :=
  ⟨fun i s hi hdone => parseLoop_frozen feedI doneI fuel src ss i s hi hdone,
   fun hall => parseLoop_all_done feedI doneI fuel src ss hall⟩

/-- C3 (witness): with the single already-done `NIDSIDExtractor` state
(network id 4, service id 5), a run over an arbitrary source leaves the
state untouched and the log empty, and the done processor at index 0 is
never fed. -/
theorem c3_done_never_fed_witness :
    ((parseLoop nidsidFeed nidsidDone 5 [1, 2, 3]
        [⟨0x11, ⟨none, []⟩, ⟨some 4, some 5⟩⟩]).1[0]? =
          some ⟨0x11, ⟨none, []⟩, ⟨some 4, some 5⟩⟩ ∧
      ∀ fl ∈ (parseLoop nidsidFeed nidsidDone 5 [1, 2, 3]
        [⟨0x11, ⟨none, []⟩, ⟨some 4, some 5⟩⟩]).2.1, fl[0]? = some false) ∧
    ((parseLoop nidsidFeed nidsidDone 5 [1, 2, 3]
        [⟨0x11, ⟨none, []⟩, ⟨some 4, some 5⟩⟩]).1 =
          [⟨0x11, ⟨none, []⟩, ⟨some 4, some 5⟩⟩] ∧
      (parseLoop nidsidFeed nidsidDone 5 [1, 2, 3]
        [⟨0x11, ⟨none, []⟩, ⟨some 4, some 5⟩⟩]).2.1 = []) :=
  ⟨(c3_done_never_fed nidsidFeed nidsidDone 5 [1, 2, 3]
      [⟨0x11, ⟨none, []⟩, ⟨some 4, some 5⟩⟩]).1 0 _ rfl (by decide),
   (c3_done_never_fed nidsidFeed nidsidDone 5 [1, 2, 3]
      [⟨0x11, ⟨none, []⟩, ⟨some 4, some 5⟩⟩]).2 (by decide)⟩

/-! ## C9: a decode error aborts the whole run -/

/-- `NIDSIDExtractor.feed_section` mutates its result fields only after
every decode step succeeded, so when it raises, the fields are unchanged. -/
theorem feed_section_error_state {st st' : NIDState} {sec : Section} {e : PyError}
    (h : st.feed_section sec = (st', some e)) : st' = st := by
  unfold NIDState.feed_section at h
  split at h
  · simp [Prod.ext_iff] at h
  · split at h
    · simp only [Prod.mk.injEq] at h
      exact h.1.symm
    · split at h
      · simp only [Prod.mk.injEq] at h
        exact h.1.symm
      · split at h <;> simp [Prod.ext_iff] at h

/-- When the `feed` of a `NIDSIDExtractor` raises, the extractor's result
fields — and hence its `done` — are unchanged (only the composed section
parser may have advanced). -/
theorem nidsidFeed_error_inner {st st' : SPPState NIDState} {packet : TSPacket}
    {e : PyError} (h : nidsidFeed st packet = (st', some e)) :
    st'.inner = st.inner ∧ nidsidDone st' = nidsidDone st := by
  suffices hs : st'.inner = st.inner by
    refine ⟨hs, ?_⟩
    unfold nidsidDone
    rw [hs]
  unfold nidsidFeed sppFeed at h
  by_cases hpid : packet.pid ≠ st.pid
  · rw [if_pos hpid] at h
    simp [Prod.ext_iff] at h
  · rw [if_neg hpid] at h
    cases hsp : st.sectionParser.feed packet.payload_unit_start_indicator packet.payload with
    | error e0 =>
      rw [hsp] at h
      simp only [Prod.mk.injEq] at h
      rw [← h.1]
    | ok sp =>
      rw [hsp] at h
      simp only [] at h
      cases hgs : sp.get_section with
      | mk sec? sp' =>
        rw [hgs] at h
        cases sec? with
        | none => simp [Prod.ext_iff] at h
        | some sec =>
          simp only [] at h
          cases hfs : NIDState.feed_section st.inner sec with
          | mk inner' e? =>
            rw [hfs] at h
            simp only [Prod.mk.injEq] at h
            obtain ⟨h1, h2⟩ := h
            subst h2
            rw [← h1]
            exact congrArg SPPState.inner (congrArg _ rfl) |>.trans
              (by simpa using feed_section_error_state hfs)

set_option maxRecDepth 100000 in
/-- C9 (counterexample): a stream of two matching-pid packets, the first
carrying a table-id-66 section whose empty SDT payload makes
`parse_sdt` raise `IndexError`, the second carrying a well-formed
qualifying SDT.  The run does NOT continue past the error: the exception
escapes `parse` (`some indexError`), the extractor is left not-done, and
only one packet was ever dispatched — although running the well-formed
second packet alone drives the extractor to done. -/
theorem c9_counterexample :
    (parseLoop nidsidFeed nidsidDone 5
        (([0x47, 0x40, 0x11, 0x10, 0, 66, 128, 0] ++ List.replicate 180 0xff) ++
         ([0x47, 0x40, 0x11, 0x10, 0, 66, 128, 27] ++
          [0, 1, 1, 0, 0, 0, 4, 0, 0, 9, 0, 0, 4, 0x50, 2, 170, 187,
           0, 5, 0, 0, 5, 72, 3, 1, 0, 0] ++ List.replicate 153 0xff))
        [initNIDSID]).2.2.1 = some .indexError ∧
    (parseLoop nidsidFeed nidsidDone 5
        (([0x47, 0x40, 0x11, 0x10, 0, 66, 128, 0] ++ List.replicate 180 0xff) ++
         ([0x47, 0x40, 0x11, 0x10, 0, 66, 128, 27] ++
          [0, 1, 1, 0, 0, 0, 4, 0, 0, 9, 0, 0, 4, 0x50, 2, 170, 187,
           0, 5, 0, 0, 5, 72, 3, 1, 0, 0] ++ List.replicate 153 0xff))
        [initNIDSID]).1.map nidsidDone = [false] ∧
    ((parseLoop nidsidFeed nidsidDone 5
        (([0x47, 0x40, 0x11, 0x10, 0, 66, 128, 0] ++ List.replicate 180 0xff) ++
         ([0x47, 0x40, 0x11, 0x10, 0, 66, 128, 27] ++
          [0, 1, 1, 0, 0, 0, 4, 0, 0, 9, 0, 0, 4, 0x50, 2, 170, 187,
           0, 5, 0, 0, 5, 72, 3, 1, 0, 0] ++ List.replicate 153 0xff))
        [initNIDSID]).2.1).length = 1 ∧
    (parseLoop nidsidFeed nidsidDone 5
        ([0x47, 0x40, 0x11, 0x10, 0, 66, 128, 27] ++
         [0, 1, 1, 0, 0, 0, 4, 0, 0, 9, 0, 0, 4, 0x50, 2, 170, 187,
          0, 5, 0, 0, 5, 72, 3, 1, 0, 0] ++ List.replicate 153 0xff)
        [initNIDSID]).1.map nidsidDone = [true] := by
  decide

/-- C9 (amended): a bit-reader error raised during a table-decode attempt
inside `feed_section` does NOT abort only that attempt.  What holds is:
(1) the owning decoder's result fields, and hence its `done`, are unchanged
by the failed attempt; but (2) the exception propagates out of the
dispatcher, terminating the entire run at that packet — the per-packet log
ends there and subsequent packets are not processed in that run (a later
well-formed occurrence of the table is decoded only by a new run). -/
theorem c9_decode_error_aborts_run :
    (∀ (st st' : SPPState NIDState) (packet : TSPacket) (e : PyError),
      nidsidFeed st packet = (st', some e) →
      st'.inner = st.inner ∧ nidsidDone st' = nidsidDone st) ∧
    (∀ {σ : Type} (feedI : σ → TSPacket → σ × Option PyError) (doneI : σ → Bool)
      (fuel : Nat) (src src' : List Nat) (ss ss' : List σ) (packet : TSPacket)
      (fed : List Bool) (e : PyError),
      nextPacket src = .ok (some (packet, src')) → ss.all doneI = false →
      dispatchStep feedI doneI packet ss = (ss', fed, some e) →
      parseLoop feedI doneI (fuel + 1) src ss = (ss', [fed], some e, src')) := by
  constructor
  · intro st st' packet e h
    exact nidsidFeed_error_inner h
  · intro σ feedI doneI fuel src src' ss ss' packet fed e hnp hnd hds
    unfold parseLoop
    rw [hnp]
    simp only []
    rw [if_neg (by simp [hnd]), hds]

set_option maxRecDepth 100000 in
/-- C9 (witness): both clauses of `c9_decode_error_aborts_run` at the
counterexample's first packet: the failing feed leaves the extractor
not-done, and the one-packet dispatch ends the run with the escaped
`IndexError` and the second packet's bytes unread. -/
theorem c9_decode_error_aborts_run_witness :
    ((⟨0x11, ⟨none, []⟩, ⟨none, none⟩⟩ : SPPState NIDState).inner =
        initNIDSID.inner ∧
      nidsidDone ⟨0x11, ⟨none, []⟩, ⟨none, none⟩⟩ = nidsidDone initNIDSID) ∧
    parseLoop nidsidFeed nidsidDone 1
        (([0x47, 0x40, 0x11, 0x10, 0, 66, 128, 0] ++ List.replicate 180 0xff) ++
          [0x47, 0x40, 0x11, 0x10] ++ List.replicate 184 0xff)
        [initNIDSID] =
      ([⟨0x11, ⟨none, []⟩, ⟨none, none⟩⟩], [[true]], some .indexError,
        [0x47, 0x40, 0x11, 0x10] ++ List.replicate 184 0xff) :=
  ⟨c9_decode_error_aborts_run.1 initNIDSID ⟨0x11, ⟨none, []⟩, ⟨none, none⟩⟩
      ⟨false, true, false, 0x11, 0, 1, 0, none,
        some ([0, 66, 128, 0] ++ List.replicate 180 0xff)⟩ .indexError (by decide),
   c9_decode_error_aborts_run.2 nidsidFeed nidsidDone 0
      (([0x47, 0x40, 0x11, 0x10, 0, 66, 128, 0] ++ List.replicate 180 0xff) ++
        [0x47, 0x40, 0x11, 0x10] ++ List.replicate 184 0xff)
      ([0x47, 0x40, 0x11, 0x10] ++ List.replicate 184 0xff)
      [initNIDSID] [⟨0x11, ⟨none, []⟩, ⟨none, none⟩⟩]
      ⟨false, true, false, 0x11, 0, 1, 0, none,
        some ([0, 66, 128, 0] ++ List.replicate 180 0xff)⟩
      [true] .indexError (by decide) (by decide) (by decide)⟩

end Rts
